import Mathlib

/-!
Verification of the rules synchronization script (`scripts/sync-rules.js`).

The script is a single linear pipeline: read the canonical
`AI_INSTRUCTIONS.md`, extract metadata and the core-standards block,
read the declared topic rule files, render three aggregate documents
plus one `.mdc` file per loaded topic, and write them out.

The embedding models JavaScript strings as `List Char` and the impure
clock reads (`new Date()`) as explicit parameters.  File reads are
modelled by an abstract file system (`FS`) mapping paths to
`Option (List Char)` (`none` = read error, mirroring `readFile`
returning `null`).  `process.exit(1)` and thrown errors are both
modelled as the `Except.error` branch of `syncRules`; the written
output files are the `(path, content)` list in the `Except.ok` branch,
in the exact order the script performs the writes.
-/

set_option autoImplicit false

/-- JavaScript strings are modelled as `List Char`. -/
abbrev Str := List Char

/-- ASCII whitespace recognised by the model of `String.prototype.trim`
(space, tab, line feed, carriage return, vertical tab, form feed). -/
def wsChar (c : Char) : Bool :=
  c == ' ' || c == '\t' || c == '\n' || c == '\r' || c == '\x0b' || c == '\x0c'

/-- Model of `s.trim()`: remove leading and trailing whitespace. -/
def jsTrim (s : Str) : Str :=
  ((s.dropWhile wsChar).reverse.dropWhile wsChar).reverse

/-- Model of `s.indexOf(pat)`: index of the first occurrence of `pat`
in `s`, or `none` where JavaScript returns `-1`. -/
def indexOf? (pat : Str) : Str → Option Nat
  | [] => if pat.isEmpty then some 0 else none
  | c :: rest =>
    if pat.isPrefixOf (c :: rest) then some 0
    else (indexOf? pat rest).map (· + 1)

/-- Model of `s.substring(a, b)`: both indices are clamped to
`[0, s.length]` and swapped when `a > b` (ECMAScript semantics). -/
def jsSubstring (s : Str) (a b : Nat) : Str :=
  let a' := min a s.length
  let b' := min b s.length
  (s.take (max a' b')).drop (min a' b')

/-- Model of `s.split(sep)` for a one-character separator. -/
def jsSplit (sep : Char) : Str → List Str
  | [] => [[]]
  | c :: rest =>
    if c == sep then [] :: jsSplit sep rest
    else
      match jsSplit sep rest with
      | [] => [[c]]
      | l :: ls => (c :: l) :: ls

/-- Model of `parts.join(sep)`. -/
def jsJoin (sep : Str) : List Str → Str
  | [] => []
  | [l] => l
  | l :: l' :: ls => l ++ sep ++ jsJoin sep (l' :: ls)

/-- The `<!-- SYNC_START -->` marker of the canonical document. -/
def syncStartMarker : Str := "<!-- SYNC_START -->".toList

/-- The `<!-- SYNC_END -->` marker of the canonical document. -/
def syncEndMarker : Str := "<!-- SYNC_END -->".toList

/-- The `<!-- INCLUDE_RULES:START -->` placeholder marker. -/
def includeStartMarker : Str := "<!-- INCLUDE_RULES:START -->".toList

/-- The `<!-- INCLUDE_RULES:END -->` placeholder marker. -/
def includeEndMarker : Str := "<!-- INCLUDE_RULES:END -->".toList

/-- Message of the `Error` thrown by `extractCoreStandards` when a
sync marker is missing (the `MalformedSourceDocument` condition). -/
def malformedMsg : Str :=
  "SYNC_START or SYNC_END markers not found in AI_INSTRUCTIONS.md".toList

/-- Message printed when `AI_INSTRUCTIONS.md` cannot be read (the
`MissingSourceFile` condition, `process.exit(1)`). -/
def missingSourceMsg : Str := "❌ Failed to read AI_INSTRUCTIONS.md".toList

/-- Fuelled model of
`coreStandards.replace(/<!-- INCLUDE_RULES:START -->[\s\S]*?<!-- INCLUDE_RULES:END -->/g, '')`.
A global lazy match removes, repeatedly, the leftmost occurrence of the
start placeholder together with everything up to the nearest following
end placeholder, continuing after the removed region.  The fuel only
bounds the recursion; each step consumes at least the start marker, so
`s.length` steps always suffice. -/
def stripIncludesAux : Nat → Str → Str
  | 0, s => s
  | fuel + 1, s =>
    match indexOf? includeStartMarker s with
    | none => s
    | some i =>
      let afterStart := s.drop (i + includeStartMarker.length)
      match indexOf? includeEndMarker afterStart with
      | none => s
      | some j =>
        s.take i ++ stripIncludesAux fuel (afterStart.drop (j + includeEndMarker.length))

/-- Model of the `INCLUDE_RULES` placeholder removal in
`extractCoreStandards` (line 62 of `sync-rules.js`). -/
def stripIncludes (s : Str) : Str := stripIncludesAux s.length s

/-- Model of `extractCoreStandards` (`sync-rules.js` lines 51–65):
locate the first occurrences of the two sync markers, throw when either
is absent, otherwise take the `substring` strictly between them, `trim`
it, strip `INCLUDE_RULES` placeholder regions, and `trim` again. -/
def extractCoreStandards (content : Str) : Except Str Str :=
  match indexOf? syncStartMarker content, indexOf? syncEndMarker content with
  | some syncStart, some syncEnd =>
    let coreStandards :=
      jsTrim (jsSubstring content (syncStart + syncStartMarker.length) syncEnd)
    .ok (jsTrim (stripIncludes coreStandards))
  | _, _ => .error malformedMsg

/-- Metadata extracted from the canonical document. -/
structure Metadata where
  version : Str
  lastUpdated : Str
  deriving DecidableEq, Repr

/-- Single attempt, at the head of `s`, of the regex
`PRE([class]+)SUF` used by `extractMetadata`: the literal prefix, a
non-empty greedy run of `p`-characters (the capture), then the literal
suffix.  Backtracking inside the run can never help because the suffix
starts with a space, which no class character matches. -/
def matchCaptureAt (pre suf : Str) (p : Char → Bool) (s : Str) : Option Str :=
  if pre.isPrefixOf s then
    let rest := s.drop pre.length
    let run := rest.takeWhile p
    if run.isEmpty then none
    else if suf.isPrefixOf (rest.drop run.length) then some run
    else none
  else none

/-- Leftmost match of `PRE([class]+)SUF` in `s`, returning the capture
group — the model of `content.match(regex)` with `match[1]`. -/
def scanCapture (pre suf : Str) (p : Char → Bool) : Str → Option Str
  | [] => none
  | c :: rest =>
    match matchCaptureAt pre suf p (c :: rest) with
    | some r => some r
    | none => scanCapture pre suf p rest

/-- Character class `[\d.]` of the VERSION regex. -/
def digitDot (c : Char) : Bool := c.isDigit || c == '.'

/-- Character class `[\d-]` of the LAST_UPDATED regex. -/
def digitDash (c : Char) : Bool := c.isDigit || c == '-'

/-- Model of `extractMetadata` (`sync-rules.js` lines 38–46).  `today`
models `new Date().toISOString().split('T')[0]`, the current date
formatted `YYYY-MM-DD`. -/
def extractMetadata (today : Str) (content : Str) : Metadata :=
  let versionMatch := scanCapture "<!-- VERSION: ".toList " -->".toList digitDot content
  let lastUpdatedMatch :=
    scanCapture "<!-- LAST_UPDATED: ".toList " -->".toList digitDash content
  { version := versionMatch.getD "1.0.0".toList
    lastUpdated := lastUpdatedMatch.getD today }

/-- One entry of the static rule table (`RULE_FILES`, lines 25–33):
rule file name, display name, short key. -/
structure RuleInfo where
  file : Str
  name : Str
  key : Str
  deriving DecidableEq, Repr

/-- The static `RULE_FILES` table of `sync-rules.js`. -/
def RULE_FILES : List RuleInfo :=
  [ ⟨"component-standards.md".toList, "Component Standards".toList, "component-standards".toList⟩,
    ⟨"folder-structure.md".toList, "Folder Structure".toList, "folder-structure".toList⟩,
    ⟨"testing.md".toList, "Testing".toList, "testing".toList⟩,
    ⟨"routing.md".toList, "Routing".toList, "routing".toList⟩,
    ⟨"state-management.md".toList, "State Management".toList, "state-management".toList⟩,
    ⟨"api-integration.md".toList, "API Integration".toList, "api-integration".toList⟩,
    ⟨"ai-tool-integration.md".toList, "AI Tool Integration".toList, "ai-tool-integration".toList⟩ ]

/-- A rule topic together with the content read from its file
(`{...ruleInfo, content: ruleContent}` in `syncRules`). -/
structure LoadedRule where
  file : Str
  name : Str
  key : Str
  content : Str
  deriving DecidableEq, Repr

/-- The `RuleInfo` part of a `LoadedRule`. -/
def LoadedRule.info (r : LoadedRule) : RuleInfo := ⟨r.file, r.name, r.key⟩

/-- Model of the `rules.forEach(rule => { if (rule.content) content += line(rule); })`
pattern shared by the three aggregate renderers: concatenate `line r`
for each rule whose content is truthy (non-empty), left to right. -/
def joinMapped (line : LoadedRule → Str) : List LoadedRule → Str
  | [] => []
  | r :: rs => (if r.content.isEmpty then [] else line r) ++ joinMapped line rs

/-- Detailed-rules index line of the Copilot and Replit renderers:
`- **${rule.name}**: [docs/rules/${rule.file}](docs/rules/${rule.file})\n`. -/
def detailRuleLine (r : LoadedRule) : Str :=
  "- **".toList ++ r.name ++ "**: [docs/rules/".toList ++ r.file
    ++ "](docs/rules/".toList ++ r.file ++ ")\n".toList

/-- Quick-reference index line of the Copilot and Replit renderers:
`- ${rule.name}: docs/rules/${rule.file}\n`. -/
def quickRuleLine (r : LoadedRule) : Str :=
  "- ".toList ++ r.name ++ ": docs/rules/".toList ++ r.file ++ "\n".toList

/-- Quick-reference line of the Cursor main renderer:
`- **${rule.name}**: See \`.cursor/rules/${rule.key}.mdc\`\n`. -/
def cursorSeeLine (r : LoadedRule) : Str :=
  "- **".toList ++ r.name ++ "**: See `.cursor/rules/".toList ++ r.key ++ ".mdc`\n".toList

/-- Detailed-rules line of the Cursor main renderer:
`- **${rule.name}**: \`.cursor/rules/${rule.key}.mdc\` (from \`docs/rules/${rule.file}\`)\n`. -/
def cursorFromLine (r : LoadedRule) : Str :=
  "- **".toList ++ r.name ++ "**: `.cursor/rules/".toList ++ r.key
    ++ ".mdc` (from `docs/rules/".toList ++ r.file ++ "`)\n".toList

/-- The auto-generated warning banner of the Copilot and Replit outputs. -/
def generatedBanner : Str :=
  "**⚠️ IMPORTANT: This file is auto-generated from `AI_INSTRUCTIONS.md` and `docs/rules/*.md`. Do not edit manually.**".toList

/-- The warning banner of the Cursor main output. -/
def cursorBanner : Str :=
  "**⚠️ IMPORTANT: This rule aligns with `AI_INSTRUCTIONS.md` as the single source of truth.**".toList

/-- Shared middle section of the Copilot and Replit templates, from the
core-standards block to the detailed-rules index. -/
def aggregateMid1 : Str :=
  "\n\n## Detailed Rules\n\nFor comprehensive guidelines, refer to the following rule files in `docs/rules/`:\n\n".toList

/-- Shared section of the Copilot and Replit templates between the two
rule indexes. -/
def aggregateMid2 : Str :=
  "- **Full Rules**: [docs/README.md](docs/rules/README.md)\n\n## Quick Reference\n\nFor detailed guidelines with examples and checklists:\n\n".toList

/-- Shared tail of the Copilot and Replit templates. -/
def aggregateTail : Str :=
  "- Full Rules: docs/README.md\n\n## When in Doubt\n\nRead the detailed rules in docs/rules/ directory for comprehensive guidelines, examples, and best practices.\n\n## Single Source of Truth\n\nFor the complete and authoritative rules, always refer to **`AI_INSTRUCTIONS.md`** at the project root. This file ensures consistency across all AI tools and IDEs.\n".toList

/-- Model of `generateCopilotInstructions` (lines 119–169).  `now`
models the `new Date().toISOString()` call at the top of the function. -/
def generateCopilotInstructions (coreStandards : Str) (rules : List LoadedRule)
    (metadata : Metadata) (now : Str) : Str :=
  "# GitHub Copilot Instructions\n\n".toList ++ generatedBanner ++ "\n\n".toList
    ++ "**Rules Version:** ".toList ++ metadata.version ++ "  \n".toList
    ++ "**Last Updated:** ".toList ++ now ++ "\n\n".toList
    ++ coreStandards ++ aggregateMid1
    ++ joinMapped detailRuleLine rules ++ aggregateMid2
    ++ joinMapped quickRuleLine rules ++ aggregateTail

/-- Model of `generateReplitInstructions` (lines 174–224); identical to
the Copilot renderer except for the title line. -/
def generateReplitInstructions (coreStandards : Str) (rules : List LoadedRule)
    (metadata : Metadata) (now : Str) : Str :=
  "# Replit AI Instructions\n\n".toList ++ generatedBanner ++ "\n\n".toList
    ++ "**Rules Version:** ".toList ++ metadata.version ++ "  \n".toList
    ++ "**Last Updated:** ".toList ++ now ++ "\n\n".toList
    ++ coreStandards ++ aggregateMid1
    ++ joinMapped detailRuleLine rules ++ aggregateMid2
    ++ joinMapped quickRuleLine rules ++ aggregateTail

/-- Model of `generateCursorMainRules` (lines 229–278).  Note that the
`metadata` argument is accepted but never used by the source function. -/
def generateCursorMainRules (coreStandards : Str) (rules : List LoadedRule)
    (metadata : Metadata) : Str :=
  "---\ndescription: Project-wide development standards and rules for React TypeScript development\nglobs: '*.ts,*.tsx,*.js,*.jsx'\nalwaysApply: true\n---\n\n# Project Rules for AI Code Generation\n\n".toList
    ++ cursorBanner ++ "\n\n".toList
    ++ coreStandards
    ++ "\n\n## Quick Reference\n\nFor detailed guidelines with examples and checklists, refer to the individual rule files in this directory:\n\n".toList
    ++ joinMapped cursorSeeLine rules
    ++ "\n## Detailed Rules\n\nThe following individual rule files contain comprehensive guidelines:\n\n".toList
    ++ joinMapped cursorFromLine rules
    ++ "\n## When in Doubt\n\nRead the detailed rules in `docs/rules/` directory or the corresponding `.cursor/rules/*.mdc` files for comprehensive guidelines, examples, and best practices.\n\n## Single Source of Truth\n\nFor the complete and authoritative rules, always refer to **`AI_INSTRUCTIONS.md`** at the project root. This file ensures consistency across all AI tools and IDEs.\n".toList

/-- The `frontmatter` template literal of `generateMdcContent`. -/
def mdcFrontmatter (description : Str) : Str :=
  "---\ndescription: ".toList ++ description
    ++ "\nglobs: '*.ts,*.tsx,*.js,*.jsx'\nalwaysApply: true\n---\n\n".toList

/-- Model of `generateMdcContent` (lines 94–114): frontmatter plus the
trimmed rule content, with the first line removed (and the remainder
re-trimmed) when the trimmed content starts with a `# ` title line.
The `ruleName` parameter is unused, as in the source. -/
def generateMdcContent (ruleContent ruleName description : Str) : Str :=
  let frontmatter := mdcFrontmatter description
  let content := jsTrim ruleContent
  let content :=
    if "#".toList.isPrefixOf content then
      let lines := jsSplit '\n' content
      if "# ".toList.isPrefixOf (lines.headD []) then
        jsTrim (jsJoin "\n".toList (lines.drop 1))
      else content
    else content
  frontmatter ++ content

/-- Abstract read-only file system: content of `AI_INSTRUCTIONS.md`
and, for each rule file name, the content of `docs/rules/<file>`.
`none` models a failed read (`readFile` returning `null`). -/
structure FS where
  aiInstructions : Option Str
  ruleFile : Str → Option Str

/-- One iteration of the rule-loading loop of `syncRules`
(lines 303–316): read `rulesDir/ruleInfo.file`; keep the topic only
when the read succeeds and the content is truthy (non-empty). -/
def loadOne (fs : FS) (ruleInfo : RuleInfo) : Option LoadedRule :=
  match fs.ruleFile ruleInfo.file with
  | some ruleContent =>
    if ruleContent.isEmpty then none
    else some ⟨ruleInfo.file, ruleInfo.name, ruleInfo.key, ruleContent⟩
  | none => none

/-- The `rules` list built by `syncRules`: the declared topics that
loaded successfully, in `RULE_FILES` order. -/
def loadRules (fs : FS) : List LoadedRule := RULE_FILES.filterMap (loadOne fs)

/-- Whether a declared topic would be loaded: its file reads
successfully with truthy (non-empty) content. -/
def presentB (fs : FS) (ruleInfo : RuleInfo) : Bool :=
  match fs.ruleFile ruleInfo.file with
  | some ruleContent => !ruleContent.isEmpty
  | none => false

/-- Output path of the Copilot aggregate (`COPILOT_FILE`). -/
def copilotPath : Str := ".github/copilot-instructions.md".toList

/-- Output path of the Replit aggregate (`REPLIT_FILE`). -/
def replitPath : Str := "replit.md".toList

/-- Output path of the Cursor main rules file. -/
def cursorMainPath : Str := ".cursor/rules/project-standards.mdc".toList

/-- Output path of the per-topic Cursor rule file for a given key. -/
def cursorTopicPath (key : Str) : Str :=
  ".cursor/rules/".toList ++ key ++ ".mdc".toList

/-- Model of `syncRules` plus the top-level try/catch (lines 283–360).
`today` models the current `YYYY-MM-DD` date; `nowCop` and `nowRep`
model the two separate `new Date().toISOString()` calls made inside the
Copilot and Replit renderers.  The result is either the fatal error
message (`process.exit(1)`) or the list of `(path, content)` writes in
program order: Copilot aggregate, Replit aggregate, Cursor main file,
then one `.mdc` file per loaded rule in `RULE_FILES` order. -/
def syncRules (today nowCop nowRep : Str) (fs : FS) :
    Except Str (List (Str × Str)) :=
  match fs.aiInstructions with
  | none => .error missingSourceMsg
  | some aiInstructionsContent =>
    if aiInstructionsContent.isEmpty then .error missingSourceMsg
    else
      let metadata := extractMetadata today aiInstructionsContent
      match extractCoreStandards aiInstructionsContent with
      | .error e => .error e
      | .ok coreStandards =>
        let rules := loadRules fs
        .ok ([ (copilotPath, generateCopilotInstructions coreStandards rules metadata nowCop),
               (replitPath, generateReplitInstructions coreStandards rules metadata nowRep),
               (cursorMainPath, generateCursorMainRules coreStandards rules metadata) ]
          ++ rules.map (fun rule =>
               (cursorTopicPath rule.key,
                generateMdcContent rule.content rule.name
                  (rule.name ++ " rules for React TypeScript development".toList))))

/-- Specification-side variant of `detailRuleLine` on the static table. -/
def detailLineInfo (ri : RuleInfo) : Str :=
  "- **".toList ++ ri.name ++ "**: [docs/rules/".toList ++ ri.file
    ++ "](docs/rules/".toList ++ ri.file ++ ")\n".toList

/-- Specification-side variant of `quickRuleLine` on the static table. -/
def quickLineInfo (ri : RuleInfo) : Str :=
  "- ".toList ++ ri.name ++ ": docs/rules/".toList ++ ri.file ++ "\n".toList

/-- Specification-side variant of `cursorSeeLine` on the static table. -/
def cursorSeeLineInfo (ri : RuleInfo) : Str :=
  "- **".toList ++ ri.name ++ "**: See `.cursor/rules/".toList ++ ri.key ++ ".mdc`\n".toList

/-- Specification-side variant of `cursorFromLine` on the static table. -/
def cursorFromLineInfo (ri : RuleInfo) : Str :=
  "- **".toList ++ ri.name ++ "**: `.cursor/rules/".toList ++ ri.key
    ++ ".mdc` (from `docs/rules/".toList ++ ri.file ++ "`)\n".toList

/-- Concatenation of one line per table entry, in table order. -/
def concatLines (f : RuleInfo → Str) : List RuleInfo → Str
  | [] => []
  | ri :: l => f ri ++ concatLines f l

/-- The text strictly between the first occurrences of the two sync
markers, as selected by `substring` in `extractCoreStandards`. -/
def betweenMarkers (doc : Str) (p e : Nat) : Str :=
  (doc.take e).drop (p + syncStartMarker.length)

/-- The write list produced by a successful run, as a function of the
extracted pieces. -/
def runWrites (core : Str) (rules : List LoadedRule) (metadata : Metadata)
    (nowCop nowRep : Str) : List (Str × Str) :=
  [ (copilotPath, generateCopilotInstructions core rules metadata nowCop),
    (replitPath, generateReplitInstructions core rules metadata nowRep),
    (cursorMainPath, generateCursorMainRules core rules metadata) ]
  ++ rules.map (fun rule =>
       (cursorTopicPath rule.key,
        generateMdcContent rule.content rule.name
          (rule.name ++ " rules for React TypeScript development".toList)))

/-- Test fixture for the C5 counterexample: `testing.md` is missing
from disk, `routing.md` exists but is empty, every other topic file
has content `x`, and the canonical document is valid. -/
def fsOneMissingOneEmpty : FS :=
  { aiInstructions := some "<!-- SYNC_START -->core<!-- SYNC_END -->".toList
    ruleFile := fun g =>
      if g = "testing.md".toList then none
      else if g = "routing.md".toList then some [] else some "x".toList }

/-! ### Helper lemmas about the string primitives -/

theorem indexOf?_eq_none_iff (pat s : Str) : indexOf? pat s = none ↔ ¬ pat <:+: s := by
  induction s with
  | nil =>
    by_cases h : pat = [] <;> simp [indexOf?, List.isEmpty_iff, h]
  | cons c rest ih =>
    by_cases h : pat.isPrefixOf (c :: rest)
    · have hp : pat <+: c :: rest := List.isPrefixOf_iff_prefix.mp h
      simp [indexOf?, h, List.infix_cons_iff, hp]
    · have hp : ¬ pat <+: c :: rest := fun hc => h (List.isPrefixOf_iff_prefix.mpr hc)
      simp [indexOf?, h, List.infix_cons_iff, hp, ih, Option.map_eq_none']

theorem indexOf?_some_prefix {pat s : Str} {i : Nat} (h : indexOf? pat s = some i) :
    pat <+: s.drop i := by
  induction s generalizing i with
  | nil =>
    simp only [indexOf?] at h
    split at h
    · cases h
      simp_all [List.isEmpty_iff]
    · cases h
  | cons c rest ih =>
    simp only [indexOf?] at h
    split at h
    · cases h
      simpa using List.isPrefixOf_iff_prefix.mp ‹_›
    · cases hx : indexOf? pat rest with
      | none => rw [hx] at h; cases h
      | some j =>
        rw [hx] at h
        simp only [Option.map_some'] at h
        cases h
        simpa using ih hx

theorem indexOf?_le_length {pat s : Str} {i : Nat} (h : indexOf? pat s = some i) :
    i ≤ s.length := by
  induction s generalizing i with
  | nil =>
    simp only [indexOf?] at h
    split at h
    · cases h; simp
    · cases h
  | cons c rest ih =>
    simp only [indexOf?] at h
    split at h
    · cases h; simp
    · cases hx : indexOf? pat rest with
      | none => rw [hx] at h; cases h
      | some j =>
        rw [hx] at h
        simp only [Option.map_some'] at h
        cases h
        simpa using ih hx

theorem indexOf?_min {pat s : Str} {i j : Nat} (h : indexOf? pat s = some i)
    (hj : pat <+: s.drop j) : i ≤ j := by
  induction s generalizing i j with
  | nil =>
    simp only [indexOf?] at h
    split at h
    · cases h; exact Nat.zero_le j
    · cases h
  | cons c rest ih =>
    simp only [indexOf?] at h
    split at h
    · cases h; exact Nat.zero_le j
    · cases hx : indexOf? pat rest with
      | none => rw [hx] at h; cases h
      | some i' =>
        rw [hx] at h
        simp only [Option.map_some'] at h
        cases h
        cases j with
        | zero =>
          simp only [List.drop_zero] at hj
          exact absurd (List.isPrefixOf_iff_prefix.mpr hj) (by assumption)
        | succ j' =>
          exact Nat.succ_le_succ (ih hx (by simpa using hj))

theorem infix_iff_prefix_drop {pat s : Str} : pat <:+: s ↔ ∃ i, pat <+: s.drop i := by
  constructor
  · rintro ⟨u, v, rfl⟩
    refine ⟨u.length, ?_⟩
    rw [List.append_assoc, List.drop_left]
    exact List.prefix_append pat v
  · rintro ⟨i, t, ht⟩
    exact ⟨s.take i, t, by rw [List.append_assoc, ht, List.take_append_drop]⟩

theorem indexOf?_isSome_of_infix {pat s : Str} (h : pat <:+: s) :
    ∃ i, indexOf? pat s = some i := by
  cases hx : indexOf? pat s with
  | none => exact absurd h ((indexOf?_eq_none_iff pat s).mp hx)
  | some i => exact ⟨i, rfl⟩

/-! ### Helper lemmas about `jsTrim` -/

theorem dropWhile_head?_false {p : Char → Bool} {l : Str} {c : Char}
    (h : (l.dropWhile p).head? = some c) : p c = false := by
  induction l with
  | nil => cases h
  | cons a l ih =>
    rw [List.dropWhile_cons] at h
    split at h
    · exact ih h
    · cases h
      rename_i hpa
      exact Bool.eq_false_iff.mpr hpa

theorem dropWhile_eq_self_of_head {p : Char → Bool} {l : Str}
    (h : ∀ c, l.head? = some c → p c = false) : l.dropWhile p = l := by
  cases l with
  | nil => rfl
  | cons a l => rw [List.dropWhile_cons, h a rfl]; simp

theorem jsTrim_prefix_dropWhile (s : Str) : jsTrim s <+: s.dropWhile wsChar := by
  apply List.reverse_suffix.mp
  show (((s.dropWhile wsChar).reverse.dropWhile wsChar).reverse).reverse <:+ _
  rw [List.reverse_reverse]
  exact List.dropWhile_suffix wsChar

theorem jsTrim_infix (s : Str) : jsTrim s <:+: s :=
  (jsTrim_prefix_dropWhile s).isInfix.trans (List.dropWhile_suffix wsChar).isInfix

theorem jsTrim_eq_nil_iff (s : Str) : jsTrim s = [] ↔ ∀ c ∈ s, wsChar c := by
  unfold jsTrim
  rw [List.reverse_eq_nil_iff, List.dropWhile_eq_nil_iff]
  constructor
  · intro h c hc
    rw [← List.takeWhile_append_dropWhile (p := wsChar) (l := s)] at hc
    rcases List.mem_append.mp hc with h1 | h2
    · exact List.mem_takeWhile_imp h1
    · exact h c (List.mem_reverse.mpr h2)
  · intro h c hc
    exact h c ((List.dropWhile_sublist wsChar).subset (List.mem_reverse.mp hc))

theorem jsTrim_head?_false {s : Str} {c : Char} (h : (jsTrim s).head? = some c) :
    wsChar c = false := by
  have hpre := jsTrim_prefix_dropWhile s
  cases hj : jsTrim s with
  | nil => rw [hj] at h; cases h
  | cons a l =>
    rw [hj] at h hpre
    cases h
    obtain ⟨t, ht⟩ := hpre
    exact dropWhile_head?_false (l := s) (by rw [← ht]; rfl)

theorem jsTrim_idem (s : Str) : jsTrim (jsTrim s) = jsTrim s := by
  have h1 : (jsTrim s).dropWhile wsChar = jsTrim s :=
    dropWhile_eq_self_of_head (fun c hc => jsTrim_head?_false hc)
  have h2 : (jsTrim s).reverse.dropWhile wsChar = (jsTrim s).reverse := by
    have hrev : (jsTrim s).reverse = ((s.dropWhile wsChar).reverse).dropWhile wsChar := by
      show ((((s.dropWhile wsChar).reverse.dropWhile wsChar)).reverse).reverse = _
      rw [List.reverse_reverse]
    rw [hrev, List.dropWhile_idempotent]
  show (((jsTrim s).dropWhile wsChar).reverse.dropWhile wsChar).reverse = jsTrim s
  rw [h1, h2, List.reverse_reverse]

/-! ### Helper lemmas about `stripIncludes` and `scanCapture` -/

theorem stripIncludesAux_no_marker {s : Str} (h : indexOf? includeStartMarker s = none) :
    ∀ fuel, stripIncludesAux fuel s = s
  | 0 => rfl
  | fuel + 1 => by simp [stripIncludesAux, h]

theorem stripIncludes_no_marker {s : Str} (h : ¬ includeStartMarker <:+: s) :
    stripIncludes s = s :=
  stripIncludesAux_no_marker ((indexOf?_eq_none_iff _ _).mpr h) _

theorem scanCapture_eq_none {pre suf : Str} {p : Char → Bool} {s : Str}
    (h : ¬ pre <:+: s) : scanCapture pre suf p s = none := by
  induction s with
  | nil => rfl
  | cons c rest ih =>
    have hp : pre.isPrefixOf (c :: rest) = false := by
      rw [Bool.eq_false_iff]
      intro hc
      exact h (List.infix_cons_iff.mpr (Or.inl (List.isPrefixOf_iff_prefix.mp hc)))
    have hrest : ¬ pre <:+: rest := fun hc => h (List.infix_cons_iff.mpr (Or.inr hc))
    simp [scanCapture, matchCaptureAt, hp, ih hrest]

/-! ### Helper lemmas about rule loading and index rendering -/

theorem loadOne_eq_none_iff {fs : FS} {ri : RuleInfo} :
    loadOne fs ri = none ↔ presentB fs ri = false := by
  unfold loadOne presentB
  cases fs.ruleFile ri.file with
  | none => simp
  | some c => cases hc : c.isEmpty <;> simp [hc]

theorem loadOne_some_info {fs : FS} {ri : RuleInfo} {r : LoadedRule}
    (h : loadOne fs ri = some r) : r.info = ri ∧ r.content.isEmpty = false := by
  cases hf : fs.ruleFile ri.file with
  | none => simp [loadOne, hf] at h
  | some c =>
    cases hc : c.isEmpty with
    | true => simp [loadOne, hf, hc] at h
    | false =>
      simp only [loadOne, hf, hc, Bool.false_eq_true, if_false, Option.some.injEq] at h
      subst h
      exact ⟨rfl, hc⟩

theorem presentB_of_loadOne_some {fs : FS} {ri : RuleInfo} {r : LoadedRule}
    (h : loadOne fs ri = some r) : presentB fs ri = true := by
  cases hx : presentB fs ri with
  | true => rfl
  | false => rw [loadOne_eq_none_iff.mpr hx] at h; cases h

theorem filterMap_load_info (fs : FS) (l : List RuleInfo) :
    (l.filterMap (loadOne fs)).map LoadedRule.info = l.filter (presentB fs) := by
  induction l with
  | nil => rfl
  | cons ri l ih =>
    rw [List.filterMap_cons, List.filter_cons]
    cases hx : loadOne fs ri with
    | none => simp [loadOne_eq_none_iff.mp hx, ih]
    | some r =>
      obtain ⟨hinfo, _⟩ := loadOne_some_info hx
      simp [presentB_of_loadOne_some hx, ih, hinfo]

theorem loadRules_map_info (fs : FS) :
    (loadRules fs).map LoadedRule.info = RULE_FILES.filter (presentB fs) :=
  filterMap_load_info fs RULE_FILES

theorem content_ne_empty_of_mem_loadRules {fs : FS} {r : LoadedRule}
    (h : r ∈ loadRules fs) : r.content.isEmpty = false := by
  unfold loadRules at h
  obtain ⟨ri, _, hload⟩ := List.mem_filterMap.mp h
  exact (loadOne_some_info hload).2

theorem joinMapped_filter (f : LoadedRule → Str) (rules : List LoadedRule) :
    joinMapped f (rules.filter (fun r => !r.content.isEmpty)) = joinMapped f rules := by
  induction rules with
  | nil => rfl
  | cons r rs ih =>
    cases hr : r.content.isEmpty <;>
      simp [joinMapped, List.filter_cons, hr, ih]

theorem infix_joinMapped {f : LoadedRule → Str} {r : LoadedRule} {rules : List LoadedRule}
    (hr : r ∈ rules) (hc : r.content.isEmpty = false) : f r <:+: joinMapped f rules := by
  induction rules with
  | nil => cases hr
  | cons x rs ih =>
    rcases List.mem_cons.mp hr with rfl | hmem
    · simp only [joinMapped, hc, Bool.false_eq_true, if_false]
      exact (List.prefix_append _ _).isInfix
    · exact (ih hmem).trans (List.suffix_append _ _).isInfix

theorem joinMapped_filterMap_load (fs : FS) (f : LoadedRule → Str) (g : RuleInfo → Str)
    (hfg : ∀ r : LoadedRule, f r = g r.info) (l : List RuleInfo) :
    joinMapped f (l.filterMap (loadOne fs)) = concatLines g (l.filter (presentB fs)) := by
  induction l with
  | nil => rfl
  | cons ri l ih =>
    rw [List.filterMap_cons, List.filter_cons]
    cases hx : loadOne fs ri with
    | none => simp [loadOne_eq_none_iff.mp hx, ih, joinMapped]
    | some r =>
      obtain ⟨hinfo, hc⟩ := loadOne_some_info hx
      simp [presentB_of_loadOne_some hx, joinMapped, concatLines, hc, ih, hfg r, hinfo]

/-! ### Helper lemmas about `jsSplit` and `jsJoin` -/

theorem jsSplit_ne_nil (sep : Char) (s : Str) : jsSplit sep s ≠ [] := by
  cases s with
  | nil => simp [jsSplit]
  | cons c rest =>
    by_cases h : c == sep
    · simp [jsSplit, h]
    · simp only [jsSplit, h, Bool.false_eq_true, if_false]
      cases jsSplit sep rest <;> simp

theorem jsJoin_jsSplit (sep : Char) (s : Str) : jsJoin [sep] (jsSplit sep s) = s := by
  induction s with
  | nil => rfl
  | cons c rest ih =>
    by_cases h : c == sep
    · have hc : c = sep := by simpa using h
      cases hsplit : jsSplit sep rest with
      | nil => exact absurd hsplit (jsSplit_ne_nil sep rest)
      | cons l ls =>
        rw [hsplit] at ih
        simp [jsSplit, h, hsplit, jsJoin, ih, hc]
    · cases hsplit : jsSplit sep rest with
      | nil => exact absurd hsplit (jsSplit_ne_nil sep rest)
      | cons l ls =>
        rw [hsplit] at ih
        cases ls with
        | nil => simpa [jsSplit, h, hsplit, jsJoin] using congrArg (c :: ·) ih
        | cons l2 ls2 => simpa [jsSplit, h, hsplit, jsJoin] using congrArg (c :: ·) ih

theorem jsSplit_headD (sep : Char) (s : Str) :
    (jsSplit sep s).headD [] = s.takeWhile (· != sep) := by
  induction s with
  | nil => rfl
  | cons c rest ih =>
    by_cases h : c == sep
    · have hc : c = sep := by simpa using h
      simp [jsSplit, h, List.takeWhile_cons, hc]
    · have hc : ¬ c = sep := by simpa using h
      cases hsplit : jsSplit sep rest with
      | nil => exact absurd hsplit (jsSplit_ne_nil sep rest)
      | cons l ls =>
        rw [hsplit] at ih
        simp only [List.headD] at ih
        simp [jsSplit, h, hsplit, List.takeWhile_cons, ih, hc]

theorem not_mem_takeWhile_ne (sep : Char) (s : Str) : sep ∉ s.takeWhile (· != sep) := by
  intro h
  have := List.mem_takeWhile_imp h
  simp at this

theorem prefix_takeWhile {q : Char → Bool} {pat s : Str}
    (hq : ∀ a ∈ pat, q a = true) (h : pat <+: s) : pat <+: s.takeWhile q := by
  induction pat generalizing s with
  | nil => exact List.nil_prefix
  | cons a pat ih =>
    obtain ⟨t, ht⟩ := h
    subst ht
    rw [List.cons_append, List.takeWhile_cons, hq a (List.mem_cons_self a pat)]
    simp only [if_true]
    exact List.cons_prefix_cons.mpr
      ⟨rfl, ih (fun b hb => hq b (List.mem_cons_of_mem a hb)) (List.prefix_append pat t)⟩

theorem prefix_takeWhile_iff {q : Char → Bool} {pat s : Str}
    (hq : ∀ a ∈ pat, q a = true) : pat <+: s.takeWhile q ↔ pat <+: s :=
  ⟨fun h => h.trans (List.takeWhile_prefix q), prefix_takeWhile hq⟩

theorem extract_error_of_missing {doc : Str}
    (h : ¬ syncStartMarker <:+: doc ∨ ¬ syncEndMarker <:+: doc) :
    extractCoreStandards doc = .error malformedMsg := by
  unfold extractCoreStandards
  rcases h with h | h
  · rw [(indexOf?_eq_none_iff _ _).mpr h]
  · rw [(indexOf?_eq_none_iff _ _).mpr h]
    cases indexOf? syncStartMarker doc <;> rfl

theorem extract_eq_ok_of_indexes {doc : Str} {p e : Nat}
    (hp : indexOf? syncStartMarker doc = some p)
    (he : indexOf? syncEndMarker doc = some e) :
    extractCoreStandards doc
      = .ok (jsTrim (stripIncludes
          (jsTrim (jsSubstring doc (p + syncStartMarker.length) e)))) := by
  simp only [extractCoreStandards, hp, he]

/-! ### Claim theorems -/

/-- C1: for every canonical document missing the `SYNC_START` or the
`SYNC_END` marker, `extractCoreStandards` fails with the
`MalformedSourceDocument` error, and the whole run aborts with an
error, writing no output files (the `Except.ok` write list is never
produced). -/
theorem missing_marker_aborts_run
    (today nowCop nowRep : Str) (fs : FS) (doc : Str)
    (hdoc : fs.aiInstructions = some doc)
    (hmiss : ¬ syncStartMarker <:+: doc ∨ ¬ syncEndMarker <:+: doc) :
    extractCoreStandards doc = .error malformedMsg ∧
      ∃ msg, syncRules today nowCop nowRep fs = .error msg := by
  have hext : extractCoreStandards doc = .error malformedMsg :=
    extract_error_of_missing hmiss
  refine ⟨hext, ?_⟩
  unfold syncRules
  rw [hdoc]
  cases hde : doc.isEmpty with
  | true => exact ⟨missingSourceMsg, by simp [hde]⟩
  | false => exact ⟨malformedMsg, by simp [hde, hext]⟩

theorem missing_marker_aborts_run_witness :
    extractCoreStandards "hello".toList = .error malformedMsg ∧
      ∃ msg, syncRules "2026-10-12".toList "T".toList "T".toList
          ⟨some "hello".toList, fun _ => none⟩ = .error msg :=
  missing_marker_aborts_run _ _ _ _ _ rfl (Or.inl (by decide))

/-- C2 counterexample: a document in which the first `SYNC_END`
occurrence (index 0) precedes the first `SYNC_START` occurrence
(index 17), yet `extractCoreStandards` does not fail: ECMAScript
`substring` swaps its bounds, so the call returns a value. -/
theorem end_before_start_returns_ok :
    indexOf? syncEndMarker "<!-- SYNC_END --><!-- SYNC_START -->".toList = some 0 ∧
    indexOf? syncStartMarker "<!-- SYNC_END --><!-- SYNC_START -->".toList = some 17 ∧
    extractCoreStandards "<!-- SYNC_END --><!-- SYNC_START -->".toList
      = .ok "<!-- SYNC_END --><!-- SYNC_START -->".toList :=
  ⟨by decide, by decide, by rfl⟩

/-- C2 (amended): `extractCoreStandards` fails with the
`MalformedSourceDocument` condition exactly when one of the two markers
is absent; whenever both markers occur — in either order —
it returns a value. -/
theorem extract_ok_iff_markers (doc : Str) :
    (∃ v, extractCoreStandards doc = .ok v) ↔
      (syncStartMarker <:+: doc ∧ syncEndMarker <:+: doc) := by
  constructor
  · rintro ⟨v, hv⟩
    constructor
    · by_contra h
      rw [extract_error_of_missing (Or.inl h)] at hv
      cases hv
    · by_contra h
      rw [extract_error_of_missing (Or.inr h)] at hv
      cases hv
  · rintro ⟨h1, h2⟩
    obtain ⟨i, hi⟩ := indexOf?_isSome_of_infix h1
    obtain ⟨j, hj⟩ := indexOf?_isSome_of_infix h2
    exact ⟨_, extract_eq_ok_of_indexes hi hj⟩

/-- C3 counterexample: two documents with both markers in order for
which the original claim fails — the extracted block can be empty, and
it can consist of the `SYNC_START` marker token itself. -/
theorem extract_valid_empty_or_marker :
    extractCoreStandards "<!-- SYNC_START --><!-- SYNC_END -->".toList = .ok [] ∧
    extractCoreStandards
        "<!-- SYNC_START --><!-- SYNC_START --><!-- SYNC_END -->".toList
      = .ok syncStartMarker :=
  ⟨by rfl, by rfl⟩

/-- C3 (amended): for every document in which both markers occur and
the first `SYNC_START` occurrence ends at or before the first
`SYNC_END` occurrence, `extractCoreStandards` succeeds; if the region
strictly between the markers contains no `INCLUDE_RULES:START`
placeholder the result is exactly that region trimmed, it never
contains the `SYNC_END` token, and it is empty exactly when the region
is all whitespace (it may contain the `SYNC_START` token). -/
theorem extract_valid_characterization (doc : Str) (p e : Nat)
    (hp : indexOf? syncStartMarker doc = some p)
    (he : indexOf? syncEndMarker doc = some e)
    (hpe : p + syncStartMarker.length ≤ e)
    (hincl : ¬ includeStartMarker <:+: betweenMarkers doc p e) :
    extractCoreStandards doc = .ok (jsTrim (betweenMarkers doc p e)) ∧
    ¬ syncEndMarker <:+: jsTrim (betweenMarkers doc p e) ∧
    (jsTrim (betweenMarkers doc p e) = [] ↔
      ∀ c ∈ betweenMarkers doc p e, wsChar c) := by
  have hlen_e : e ≤ doc.length := indexOf?_le_length he
  have hsub : jsSubstring doc (p + syncStartMarker.length) e = betweenMarkers doc p e := by
    simp only [jsSubstring, betweenMarkers]
    congr 1
    · omega
    · congr 1
      omega
  have htr : jsTrim (betweenMarkers doc p e) <:+: betweenMarkers doc p e := jsTrim_infix _
  have hincl' : ¬ includeStartMarker <:+: jsTrim (betweenMarkers doc p e) :=
    fun hc => hincl (hc.trans htr)
  refine ⟨?_, ?_, jsTrim_eq_nil_iff _⟩
  · rw [extract_eq_ok_of_indexes hp he, hsub, stripIncludes_no_marker hincl', jsTrim_idem]
  · intro hc
    obtain ⟨j, hj⟩ := infix_iff_prefix_drop.mp (hc.trans htr)
    have hdrop : (betweenMarkers doc p e).drop j
        = (doc.drop (p + syncStartMarker.length + j)).take
            (e - (p + syncStartMarker.length + j)) := by
      unfold betweenMarkers
      rw [List.drop_drop, List.drop_take]
    rw [hdrop] at hj
    have hpre : syncEndMarker <+: doc.drop (p + syncStartMarker.length + j) :=
      hj.trans (List.take_prefix _ _)
    have hmin := indexOf?_min he hpre
    have hlen := hj.length_le
    have h17 : syncEndMarker.length = 17 := by decide
    rw [List.length_take] at hlen
    omega

theorem extract_valid_characterization_witness :
    extractCoreStandards "<!-- SYNC_START -->a<!-- SYNC_END -->".toList
        = .ok "a".toList ∧
      ¬ syncEndMarker <:+: "a".toList :=
  ⟨(extract_valid_characterization "<!-- SYNC_START -->a<!-- SYNC_END -->".toList 0 20
      (by decide) (by decide) (by decide) (by decide)).1,
   (extract_valid_characterization "<!-- SYNC_START -->a<!-- SYNC_END -->".toList 0 20
      (by decide) (by decide) (by decide) (by decide)).2.1⟩

/-- C4: for every canonical document containing neither a VERSION
marker nor a LAST_UPDATED marker, `extractMetadata` returns exactly the
default version `1.0.0` and today's `YYYY-MM-DD` date. -/
theorem metadata_defaults (today content : Str)
    (h1 : ¬ "<!-- VERSION: ".toList <:+: content)
    (h2 : ¬ "<!-- LAST_UPDATED: ".toList <:+: content) :
    extractMetadata today content = ⟨"1.0.0".toList, today⟩ := by
  unfold extractMetadata
  rw [scanCapture_eq_none h1, scanCapture_eq_none h2]
  rfl

theorem metadata_defaults_witness :
    extractMetadata "2026-10-12".toList "# Instructions, no markers".toList
      = ⟨"1.0.0".toList, "2026-10-12".toList⟩ :=
  metadata_defaults _ _ (by decide) (by decide)

theorem jsJoin_nl_jsSplit (s : Str) : jsJoin "\n".toList (jsSplit '\n' s) = s :=
  jsJoin_jsSplit '\n' s

theorem generateMdcContent_body (ruleContent ruleName description : Str) :
    ∃ body,
      generateMdcContent ruleContent ruleName description
          = mdcFrontmatter description ++ body ∧
      ((¬ "# ".toList <+: jsTrim ruleContent) ∧ body = jsTrim ruleContent
        ∨ (∃ firstLine rest, jsTrim ruleContent = firstLine ++ '\n' :: rest
             ∧ "# ".toList <+: firstLine ∧ '\n' ∉ firstLine ∧ body = jsTrim rest)
        ∨ ("# ".toList <+: jsTrim ruleContent ∧ '\n' ∉ jsTrim ruleContent ∧ body = [])) := by
  simp only [generateMdcContent]
  refine ⟨_, rfl, ?_⟩
  by_cases h2 : "# ".toList <+: jsTrim ruleContent
  · have h1 : "#".toList.isPrefixOf (jsTrim ruleContent) = true :=
      List.isPrefixOf_iff_prefix.mpr (List.IsPrefix.trans ⟨[' '], rfl⟩ h2)
    have hq : ∀ a ∈ "# ".toList, (a != '\n') = true := by decide
    have hhead : "# ".toList.isPrefixOf
        ((jsSplit '\n' (jsTrim ruleContent)).headD []) = true := by
      rw [jsSplit_headD]
      exact List.isPrefixOf_iff_prefix.mpr (prefix_takeWhile hq h2)
    simp only [h1, hhead, if_true]
    cases hsplit : jsSplit '\n' (jsTrim ruleContent) with
    | nil => exact absurd hsplit (jsSplit_ne_nil _ _)
    | cons l ls =>
      have hjoin := jsJoin_nl_jsSplit (jsTrim ruleContent)
      rw [hsplit] at hjoin
      have hl : l = (jsTrim ruleContent).takeWhile (· != '\n') := by
        have hh := jsSplit_headD '\n' (jsTrim ruleContent)
        rw [hsplit] at hh
        simpa using hh
      cases ls with
      | nil =>
        right; right
        have ht : jsTrim ruleContent = l := by rw [← hjoin]; rfl
        refine ⟨h2, ?_, rfl⟩
        rw [ht, hl, ht]
        exact not_mem_takeWhile_ne '\n' _
      | cons l2 ls2 =>
        right; left
        refine ⟨l, jsJoin "\n".toList (l2 :: ls2), ?_, ?_, ?_, rfl⟩
        · rw [← hjoin]
          simp [jsJoin]
        · rw [hl]
          exact prefix_takeWhile hq h2
        · rw [hl]
          exact not_mem_takeWhile_ne '\n' _
  · refine Or.inl ⟨h2, ?_⟩
    cases h1 : "#".toList.isPrefixOf (jsTrim ruleContent) with
    | false => simp [h1]
    | true =>
      have hhead : "# ".toList.isPrefixOf
          ((jsSplit '\n' (jsTrim ruleContent)).headD []) = false := by
        rw [Bool.eq_false_iff]
        intro hc
        rw [jsSplit_headD] at hc
        exact h2 ((List.isPrefixOf_iff_prefix.mp hc).trans (List.takeWhile_prefix _))
      simp only [h1, hhead, if_true, Bool.false_eq_true, if_false]

/-- C6 (amended): every generated per-topic `.mdc` output is the fixed
frontmatter block (opening `---` line, `description:` key, the exact
single-quoted `globs` value, `alwaysApply: true`, closing `---` line)
followed by a body equal to the topic's original content **trimmed**,
with its first line removed and the remainder re-trimmed when the
trimmed content starts with a `# ` title (the removed-title body is
empty when the trimmed content is a single title line). -/
theorem mdc_frontmatter_roundtrip (ruleContent ruleName description : Str) :
    ∃ body,
      generateMdcContent ruleContent ruleName description
          = mdcFrontmatter description ++ body ∧
      "---\ndescription: ".toList
          <+: generateMdcContent ruleContent ruleName description ∧
      "\nglobs: '*.ts,*.tsx,*.js,*.jsx'\nalwaysApply: true\n---\n\n".toList
          <:+: mdcFrontmatter description ∧
      ((¬ "# ".toList <+: jsTrim ruleContent) ∧ body = jsTrim ruleContent
        ∨ (∃ firstLine rest, jsTrim ruleContent = firstLine ++ '\n' :: rest
             ∧ "# ".toList <+: firstLine ∧ '\n' ∉ firstLine ∧ body = jsTrim rest)
        ∨ ("# ".toList <+: jsTrim ruleContent ∧ '\n' ∉ jsTrim ruleContent ∧ body = [])) := by
  obtain ⟨body, heq, hdisj⟩ := generateMdcContent_body ruleContent ruleName description
  refine ⟨body, heq, ?_, ?_, hdisj⟩
  · refine ⟨description
        ++ ("\nglobs: '*.ts,*.tsx,*.js,*.jsx'\nalwaysApply: true\n---\n\n".toList ++ body), ?_⟩
    rw [heq]
    simp [mdcFrontmatter]
  · exact (List.suffix_append _ _).isInfix

/-- C6 counterexample: for the topic content `"x\n"` (no title line),
the generated body is the trimmed `"x"` — not the original content as
the claim requires, and no leading `# ` heading line was removed. -/
theorem mdc_body_not_original :
    ¬ ∃ body,
        generateMdcContent "x\n".toList "n".toList "d".toList
            = mdcFrontmatter "d".toList ++ body ∧
        (body = "x\n".toList
          ∨ ∃ firstLine rest, "x\n".toList = firstLine ++ '\n' :: rest
              ∧ "# ".toList <+: firstLine ∧ body = rest) := by
  rintro ⟨body, heq, hbody⟩
  have hgen : generateMdcContent "x\n".toList "n".toList "d".toList
      = mdcFrontmatter "d".toList ++ "x".toList := by rfl
  rw [hgen] at heq
  have hb : "x".toList = body := (List.append_right_inj _).mp heq
  rcases hbody with hb2 | ⟨firstLine, rest, hsplit, hpre, _⟩
  · rw [← hb] at hb2
    simp at hb2
  · obtain ⟨u, hu⟩ := hpre
    rw [← hu] at hsplit
    simp at hsplit

theorem syncRules_eq_runWrites {today nowCop nowRep doc core : Str} {fs : FS}
    (hai : fs.aiInstructions = some doc) (hde : doc.isEmpty = false)
    (hext : extractCoreStandards doc = .ok core) :
    syncRules today nowCop nowRep fs
      = .ok (runWrites core (loadRules fs) (extractMetadata today doc) nowCop nowRep) := by
  simp only [syncRules, hai, hde, hext, Bool.false_eq_true, if_false, runWrites]

theorem syncRules_ok_inversion {today nowCop nowRep : Str} {fs : FS} {ws : List (Str × Str)}
    (h : syncRules today nowCop nowRep fs = .ok ws) :
    ∃ doc core, fs.aiInstructions = some doc ∧ doc.isEmpty = false ∧
      extractCoreStandards doc = .ok core ∧
      ws = runWrites core (loadRules fs) (extractMetadata today doc) nowCop nowRep := by
  cases hai : fs.aiInstructions with
  | none => simp [syncRules, hai] at h
  | some doc =>
    cases hde : doc.isEmpty with
    | true => simp [syncRules, hai, hde] at h
    | false =>
      cases hext : extractCoreStandards doc with
      | error e =>
        simp [syncRules, hai, hde, hext] at h
      | ok core =>
        simp only [syncRules, hai, hde, hext, Bool.false_eq_true, if_false,
          Except.ok.injEq] at h
        exact ⟨doc, core, rfl, hde, hext, h.symm⟩

theorem infix_append_right {x a b : Str} (h : x <:+: b) : x <:+: a ++ b :=
  h.trans (List.suffix_append a b).isInfix

theorem infix_append_left {x a b : Str} (h : x <:+: a) : x <:+: a ++ b :=
  h.trans (List.prefix_append a b).isInfix

theorem not_infix_of_elem_false {a : Char} {l1 l2 : Str}
    (ha : a ∈ l1) (h : l2.elem a = false) : ¬ l1 <:+: l2 := by
  intro hinf
  have hmem : a ∈ l2 := hinf.subset ha
  rw [← List.elem_iff, h] at hmem
  cases hmem

theorem copilot_decomp (c : Str) (rules : List LoadedRule) (m : Metadata) (now : Str) :
    generateCopilotInstructions c rules m now
      = "# GitHub Copilot Instructions\n\n".toList ++ (generatedBanner ++ ("\n\n".toList
        ++ ("**Rules Version:** ".toList ++ (m.version ++ ("  \n".toList
        ++ ("**Last Updated:** ".toList ++ (now ++ ("\n\n".toList
        ++ (c ++ (aggregateMid1 ++ (joinMapped detailRuleLine rules
        ++ (aggregateMid2 ++ (joinMapped quickRuleLine rules ++ aggregateTail))))))))))))) := by
  simp [generateCopilotInstructions, List.append_assoc]

theorem replit_decomp (c : Str) (rules : List LoadedRule) (m : Metadata) (now : Str) :
    generateReplitInstructions c rules m now
      = "# Replit AI Instructions\n\n".toList ++ (generatedBanner ++ ("\n\n".toList
        ++ ("**Rules Version:** ".toList ++ (m.version ++ ("  \n".toList
        ++ ("**Last Updated:** ".toList ++ (now ++ ("\n\n".toList
        ++ (c ++ (aggregateMid1 ++ (joinMapped detailRuleLine rules
        ++ (aggregateMid2 ++ (joinMapped quickRuleLine rules ++ aggregateTail))))))))))))) := by
  simp [generateReplitInstructions, List.append_assoc]

set_option maxRecDepth 8000 in
theorem cursor_decomp (c : Str) (rules : List LoadedRule) (m : Metadata) :
    generateCursorMainRules c rules m
      = "---\ndescription: Project-wide development standards and rules for React TypeScript development\nglobs: '*.ts,*.tsx,*.js,*.jsx'\nalwaysApply: true\n---\n\n# Project Rules for AI Code Generation\n\n".toList
        ++ (cursorBanner ++ ("\n\n".toList
        ++ (c ++ ("\n\n## Quick Reference\n\nFor detailed guidelines with examples and checklists, refer to the individual rule files in this directory:\n\n".toList
        ++ (joinMapped cursorSeeLine rules
        ++ ("\n## Detailed Rules\n\nThe following individual rule files contain comprehensive guidelines:\n\n".toList
        ++ (joinMapped cursorFromLine rules
        ++ "\n## When in Doubt\n\nRead the detailed rules in `docs/rules/` directory or the corresponding `.cursor/rules/*.mdc` files for comprehensive guidelines, examples, and best practices.\n\n## Single Source of Truth\n\nFor the complete and authoritative rules, always refer to **`AI_INSTRUCTIONS.md`** at the project root. This file ensures consistency across all AI tools and IDEs.\n".toList))))))) := by
  simp [generateCursorMainRules, List.append_assoc]

set_option maxRecDepth 8000 in
/-- C7 (amended): the Copilot and Replit renderers each embed the
generated-file warning banner, the version metadata, the full
timestamp, the core-standards block verbatim, and an index line for
every loaded (truthy-content) topic, and their output is unchanged by
removing falsy-content topics (failed topics are never referenced).
The Cursor main renderer embeds its alignment warning banner, the
core block verbatim, and a per-topic line for every loaded topic, and
is likewise invariant — but it embeds no version or timestamp metadata
(see the counterexample). -/
theorem renderers_structure (coreStandards : Str) (rules : List LoadedRule)
    (metadata : Metadata) (now : Str) :
    (generatedBanner <:+: generateCopilotInstructions coreStandards rules metadata now) ∧
    (("**Rules Version:** ".toList ++ metadata.version)
        <:+: generateCopilotInstructions coreStandards rules metadata now) ∧
    (("**Last Updated:** ".toList ++ now)
        <:+: generateCopilotInstructions coreStandards rules metadata now) ∧
    (coreStandards <:+: generateCopilotInstructions coreStandards rules metadata now) ∧
    (∀ r ∈ rules, r.content.isEmpty = false →
      detailRuleLine r <:+: generateCopilotInstructions coreStandards rules metadata now) ∧
    (generateCopilotInstructions coreStandards
        (rules.filter (fun r => !r.content.isEmpty)) metadata now
      = generateCopilotInstructions coreStandards rules metadata now) ∧
    (generatedBanner <:+: generateReplitInstructions coreStandards rules metadata now) ∧
    (("**Rules Version:** ".toList ++ metadata.version)
        <:+: generateReplitInstructions coreStandards rules metadata now) ∧
    (("**Last Updated:** ".toList ++ now)
        <:+: generateReplitInstructions coreStandards rules metadata now) ∧
    (coreStandards <:+: generateReplitInstructions coreStandards rules metadata now) ∧
    (∀ r ∈ rules, r.content.isEmpty = false →
      detailRuleLine r <:+: generateReplitInstructions coreStandards rules metadata now) ∧
    (generateReplitInstructions coreStandards
        (rules.filter (fun r => !r.content.isEmpty)) metadata now
      = generateReplitInstructions coreStandards rules metadata now) ∧
    (cursorBanner <:+: generateCursorMainRules coreStandards rules metadata) ∧
    (coreStandards <:+: generateCursorMainRules coreStandards rules metadata) ∧
    (∀ r ∈ rules, r.content.isEmpty = false →
      cursorSeeLine r <:+: generateCursorMainRules coreStandards rules metadata) ∧
    (generateCursorMainRules coreStandards
        (rules.filter (fun r => !r.content.isEmpty)) metadata
      = generateCursorMainRules coreStandards rules metadata) := by
  refine ⟨?_, ?_, ?_, ?_, ?_, ?_, ?_, ?_, ?_, ?_, ?_, ?_, ?_, ?_, ?_, ?_⟩
  · rw [copilot_decomp]
    exact infix_append_right (infix_append_left List.infix_rfl)
  · rw [copilot_decomp]
    iterate 3 apply infix_append_right
    rw [← List.append_assoc]
    exact (List.prefix_append _ _).isInfix
  · rw [copilot_decomp]
    iterate 6 apply infix_append_right
    rw [← List.append_assoc]
    exact (List.prefix_append _ _).isInfix
  · rw [copilot_decomp]
    iterate 9 apply infix_append_right
    exact (List.prefix_append _ _).isInfix
  · intro r hr hc
    rw [copilot_decomp]
    iterate 11 apply infix_append_right
    exact infix_append_left (infix_joinMapped hr hc)
  · simp [generateCopilotInstructions, joinMapped_filter]
  · rw [replit_decomp]
    exact infix_append_right (infix_append_left List.infix_rfl)
  · rw [replit_decomp]
    iterate 3 apply infix_append_right
    rw [← List.append_assoc]
    exact (List.prefix_append _ _).isInfix
  · rw [replit_decomp]
    iterate 6 apply infix_append_right
    rw [← List.append_assoc]
    exact (List.prefix_append _ _).isInfix
  · rw [replit_decomp]
    iterate 9 apply infix_append_right
    exact (List.prefix_append _ _).isInfix
  · intro r hr hc
    rw [replit_decomp]
    iterate 11 apply infix_append_right
    exact infix_append_left (infix_joinMapped hr hc)
  · simp [generateReplitInstructions, joinMapped_filter]
  · rw [cursor_decomp]
    exact infix_append_right (infix_append_left List.infix_rfl)
  · rw [cursor_decomp]
    iterate 3 apply infix_append_right
    exact (List.prefix_append _ _).isInfix
  · intro r hr hc
    rw [cursor_decomp]
    iterate 5 apply infix_append_right
    exact infix_append_left (infix_joinMapped hr hc)
  · simp [generateCursorMainRules, joinMapped_filter]

theorem renderers_structure_witness :
    detailRuleLine ⟨"testing.md".toList, "Testing".toList, "testing".toList, "x".toList⟩
      <:+: generateCopilotInstructions "core".toList
            [⟨"testing.md".toList, "Testing".toList, "testing".toList, "x".toList⟩]
            ⟨"1.0.0".toList, "2026-10-12".toList⟩ "now".toList :=
  (renderers_structure "core".toList
      [⟨"testing.md".toList, "Testing".toList, "testing".toList, "x".toList⟩]
      ⟨"1.0.0".toList, "2026-10-12".toList⟩ "now".toList).2.2.2.2.1
    _ (List.mem_singleton.mpr rfl) (by decide)

set_option maxRecDepth 8000 in
/-- C7 counterexample: with version `9.9.9`, the Cursor main output
contains the version string nowhere — `generateCursorMainRules` ignores
its metadata argument entirely, so the claim that all three renderers
embed the version and timestamp metadata is false. -/
theorem cursor_main_omits_metadata :
    ¬ ("9.9.9".toList <:+: generateCursorMainRules "core".toList []
        ⟨"9.9.9".toList, "2031-01-01".toList⟩) :=
  not_infix_of_elem_false (a := '9') (by decide) (by rfl)

/-- C9: a file that exists but is empty is treated exactly like a
missing file.  Replacing any topic file's content by the empty string
yields the very same run result (hence the same outputs and indexes)
as deleting the file; an empty canonical instructions file triggers
the same fatal missing-source error (non-zero exit) as an unreadable
one, even though the read itself succeeded. -/
theorem empty_file_like_missing (today nowCop nowRep : Str) (fs : FS) (f : Str) :
    syncRules today nowCop nowRep
        { fs with ruleFile := fun g => if g = f then some [] else fs.ruleFile g }
      = syncRules today nowCop nowRep
        { fs with ruleFile := fun g => if g = f then none else fs.ruleFile g } ∧
    syncRules today nowCop nowRep { fs with aiInstructions := some [] }
      = .error missingSourceMsg ∧
    syncRules today nowCop nowRep { fs with aiInstructions := none }
      = .error missingSourceMsg := by
  refine ⟨?_, by simp [syncRules], by simp [syncRules]⟩
  have hload :
      loadRules { fs with ruleFile := fun g => if g = f then some [] else fs.ruleFile g }
        = loadRules { fs with ruleFile := fun g => if g = f then none else fs.ruleFile g } := by
    unfold loadRules
    apply List.filterMap_congr
    intro ri _
    by_cases hf : ri.file = f
    · simp [loadOne, hf]
    · simp [loadOne, hf]
  cases hai : fs.aiInstructions with
  | none => simp [syncRules, hai]
  | some doc =>
    cases hde : doc.isEmpty with
    | true => simp [syncRules, hai, hde]
    | false =>
      cases hext : extractCoreStandards doc with
      | error e => simp [syncRules, hai, hde, hext]
      | ok core =>
        rw [hai] at hload
        simp [syncRules, hai, hde, hext, hload]

/-- C8: two runs over the same file system with the same calendar day
produce byte-identical write lists — same paths in the same order, and
byte-equal contents for the Cursor main file and every per-topic file —
except that the Copilot and Replit aggregates embed their full
`Last Updated` timestamps, which are the only bytes allowed to differ:
each of those two outputs is a fixed prefix and suffix around the
embedded timestamp. -/
theorem rerun_byte_identical (today nowCop nowRep nowCop' nowRep' : Str) (fs : FS)
    {ws ws' : List (Str × Str)}
    (h : syncRules today nowCop nowRep fs = .ok ws)
    (h' : syncRules today nowCop' nowRep' fs = .ok ws') :
    ws.map Prod.fst = ws'.map Prod.fst ∧
    ws.drop 2 = ws'.drop 2 ∧
    (∃ pre suf, ws.head?.map Prod.snd = some (pre ++ nowCop ++ suf) ∧
                ws'.head?.map Prod.snd = some (pre ++ nowCop' ++ suf)) ∧
    (∃ pre suf, ws[1]?.map Prod.snd = some (pre ++ nowRep ++ suf) ∧
                ws'[1]?.map Prod.snd = some (pre ++ nowRep' ++ suf)) := by
  obtain ⟨doc, core, hai, hde, hext, hws⟩ := syncRules_ok_inversion h
  obtain ⟨doc', core', hai', hde', hext', hws'⟩ := syncRules_ok_inversion h'
  rw [hai] at hai'
  injection hai' with hd
  subst hd
  rw [hext] at hext'
  injection hext' with hc
  subst hc
  subst hws hws'
  refine ⟨?_, ?_, ?_, ?_⟩
  · simp [runWrites]
  · simp [runWrites]
  · refine ⟨"# GitHub Copilot Instructions\n\n".toList ++ generatedBanner ++ "\n\n".toList
        ++ "**Rules Version:** ".toList ++ (extractMetadata today doc).version
        ++ "  \n".toList ++ "**Last Updated:** ".toList,
      "\n\n".toList ++ core ++ aggregateMid1
        ++ joinMapped detailRuleLine (loadRules fs) ++ aggregateMid2
        ++ joinMapped quickRuleLine (loadRules fs) ++ aggregateTail, ?_, ?_⟩
    · simp [runWrites, generateCopilotInstructions, List.append_assoc]
    · simp [runWrites, generateCopilotInstructions, List.append_assoc]
  · refine ⟨"# Replit AI Instructions\n\n".toList ++ generatedBanner ++ "\n\n".toList
        ++ "**Rules Version:** ".toList ++ (extractMetadata today doc).version
        ++ "  \n".toList ++ "**Last Updated:** ".toList,
      "\n\n".toList ++ core ++ aggregateMid1
        ++ joinMapped detailRuleLine (loadRules fs) ++ aggregateMid2
        ++ joinMapped quickRuleLine (loadRules fs) ++ aggregateTail, ?_, ?_⟩
    · simp [runWrites, generateReplitInstructions, List.append_assoc]
    · simp [runWrites, generateReplitInstructions, List.append_assoc]

theorem rerun_byte_identical_witness :
    ∃ ws ws',
      syncRules "2026-10-12".toList "T1".toList "T2".toList
          ⟨some "<!-- SYNC_START -->core<!-- SYNC_END -->".toList, fun _ => none⟩ = .ok ws ∧
      syncRules "2026-10-12".toList "T3".toList "T4".toList
          ⟨some "<!-- SYNC_START -->core<!-- SYNC_END -->".toList, fun _ => none⟩ = .ok ws' ∧
      (ws.map Prod.fst = ws'.map Prod.fst ∧
       ws.drop 2 = ws'.drop 2 ∧
       (∃ pre suf, ws.head?.map Prod.snd = some (pre ++ "T1".toList ++ suf) ∧
                   ws'.head?.map Prod.snd = some (pre ++ "T3".toList ++ suf)) ∧
       (∃ pre suf, ws[1]?.map Prod.snd = some (pre ++ "T2".toList ++ suf) ∧
                   ws'[1]?.map Prod.snd = some (pre ++ "T4".toList ++ suf))) :=
  ⟨_, _, rfl, rfl,
    rerun_byte_identical "2026-10-12".toList "T1".toList "T2".toList "T3".toList "T4".toList
      ⟨some "<!-- SYNC_START -->core<!-- SYNC_END -->".toList, fun _ => none⟩ rfl rfl⟩

/-- C5 counterexample: with exactly one topic file (`testing.md`)
missing from disk and a valid canonical document, the run still
succeeds, but the rendered topic index does **not** contain all of the
N−1 = 6 present topics: the present-but-empty `routing.md` is also
omitted (its content is falsy), so only 5 topics are listed and
`Routing` is absent. -/
theorem one_missing_topic_counterexample :
    fsOneMissingOneEmpty.ruleFile "testing.md".toList = none ∧
    fsOneMissingOneEmpty.ruleFile "routing.md".toList = some [] ∧
    (∃ ws, syncRules "2026-10-12".toList "T1".toList "T2".toList
        fsOneMissingOneEmpty = .ok ws) ∧
    ((loadRules fsOneMissingOneEmpty).map (fun r => r.name)).length = 5 ∧
    "Routing".toList ∉ (loadRules fsOneMissingOneEmpty).map (fun r => r.name) :=
  ⟨by decide, by decide, ⟨_, rfl⟩, by decide, by decide⟩

/-- C5 (amended): for every topic list in which exactly one declared
topic's file is missing from disk and every other topic file is
present with non-empty content, given a valid canonical document the
run completes successfully, and every rendered output's topic index
consists of exactly the N−1 present topics, by display name, in table
order, omitting the missing topic. -/
theorem one_missing_topic_run (today nowCop nowRep : Str) (fs : FS) (doc : Str)
    (m : RuleInfo)
    (hai : fs.aiInstructions = some doc)
    (hstart : syncStartMarker <:+: doc) (hend : syncEndMarker <:+: doc)
    (hm : m ∈ RULE_FILES)
    (hmiss : fs.ruleFile m.file = none)
    (hothers : ∀ ri ∈ RULE_FILES, ri ≠ m →
      ∃ c, fs.ruleFile ri.file = some c ∧ c.isEmpty = false) :
    (∃ ws, syncRules today nowCop nowRep fs = .ok ws) ∧
    (loadRules fs).map LoadedRule.info = RULE_FILES.filter (fun ri => ri ≠ m) ∧
    ((loadRules fs).map LoadedRule.info).length = RULE_FILES.length - 1 ∧
    m.name ∉ (loadRules fs).map (fun r => r.name) ∧
    joinMapped detailRuleLine (loadRules fs)
      = concatLines detailLineInfo (RULE_FILES.filter (fun ri => ri ≠ m)) ∧
    joinMapped quickRuleLine (loadRules fs)
      = concatLines quickLineInfo (RULE_FILES.filter (fun ri => ri ≠ m)) ∧
    joinMapped cursorSeeLine (loadRules fs)
      = concatLines cursorSeeLineInfo (RULE_FILES.filter (fun ri => ri ≠ m)) ∧
    joinMapped cursorFromLine (loadRules fs)
      = concatLines cursorFromLineInfo (RULE_FILES.filter (fun ri => ri ≠ m)) := by
  have hvalid : doc.isEmpty = false := by
    cases doc with
    | nil => simp at hstart; exact absurd hstart (by decide)
    | cons c rest => rfl
  obtain ⟨p, hp⟩ := indexOf?_isSome_of_infix hstart
  obtain ⟨e, he⟩ := indexOf?_isSome_of_infix hend
  have hfilter : RULE_FILES.filter (presentB fs)
      = RULE_FILES.filter (fun ri => ri ≠ m) := by
    apply List.filter_congr
    intro ri hri
    by_cases hrm : ri = m
    · subst hrm
      simp [presentB, hmiss]
    · obtain ⟨c, hc, hce⟩ := hothers ri hri hrm
      simp [presentB, hc, hce, hrm]
  have hinfo : (loadRules fs).map LoadedRule.info
      = RULE_FILES.filter (fun ri => ri ≠ m) := by
    rw [loadRules_map_info, hfilter]
  have hnames : (loadRules fs).map (fun r => r.name)
      = (RULE_FILES.filter (fun ri => ri ≠ m)).map (fun ri => ri.name) := by
    have hmm : (loadRules fs).map (fun r => r.name)
        = ((loadRules fs).map LoadedRule.info).map (fun ri => ri.name) := by
      rw [List.map_map]; rfl
    rw [hmm, hinfo]
  refine ⟨⟨_, syncRules_eq_runWrites hai hvalid (extract_eq_ok_of_indexes hp he)⟩,
    hinfo, ?_, ?_, ?_, ?_, ?_, ?_⟩
  · rw [hinfo]
    fin_cases hm <;> decide
  · rw [hnames]
    fin_cases hm <;> decide
  · rw [show joinMapped detailRuleLine (loadRules fs)
        = concatLines detailLineInfo (RULE_FILES.filter (presentB fs)) from
      joinMapped_filterMap_load fs detailRuleLine detailLineInfo (fun r => rfl) RULE_FILES, hfilter]
  · rw [show joinMapped quickRuleLine (loadRules fs)
        = concatLines quickLineInfo (RULE_FILES.filter (presentB fs)) from
      joinMapped_filterMap_load fs quickRuleLine quickLineInfo (fun r => rfl) RULE_FILES, hfilter]
  · rw [show joinMapped cursorSeeLine (loadRules fs)
        = concatLines cursorSeeLineInfo (RULE_FILES.filter (presentB fs)) from
      joinMapped_filterMap_load fs cursorSeeLine cursorSeeLineInfo (fun r => rfl) RULE_FILES, hfilter]
  · rw [show joinMapped cursorFromLine (loadRules fs)
        = concatLines cursorFromLineInfo (RULE_FILES.filter (presentB fs)) from
      joinMapped_filterMap_load fs cursorFromLine cursorFromLineInfo (fun r => rfl) RULE_FILES, hfilter]

theorem one_missing_topic_run_witness :
    (∃ ws, syncRules "2026-10-12".toList "T1".toList "T2".toList
        ⟨some "<!-- SYNC_START -->core<!-- SYNC_END -->".toList,
         fun g => if g = "testing.md".toList then none else some "x".toList⟩ = .ok ws) ∧
    "Testing".toList ∉ (loadRules
        ⟨some "<!-- SYNC_START -->core<!-- SYNC_END -->".toList,
         fun g => if g = "testing.md".toList then none else some "x".toList⟩).map
      (fun r => r.name) := by
  have hothers : ∀ ri ∈ RULE_FILES,
      ri ≠ (⟨"testing.md".toList, "Testing".toList, "testing".toList⟩ : RuleInfo) →
      ∃ c, (⟨some "<!-- SYNC_START -->core<!-- SYNC_END -->".toList,
             fun g => if g = "testing.md".toList then none else some "x".toList⟩ : FS).ruleFile
          ri.file = some c ∧ c.isEmpty = false := by
    intro ri hri hne
    fin_cases hri
    · exact ⟨"x".toList, rfl, rfl⟩
    · exact ⟨"x".toList, rfl, rfl⟩
    · exact absurd rfl hne
    · exact ⟨"x".toList, rfl, rfl⟩
    · exact ⟨"x".toList, rfl, rfl⟩
    · exact ⟨"x".toList, rfl, rfl⟩
    · exact ⟨"x".toList, rfl, rfl⟩
  have hthm := one_missing_topic_run "2026-10-12".toList "T1".toList "T2".toList
    ⟨some "<!-- SYNC_START -->core<!-- SYNC_END -->".toList,
     fun g => if g = "testing.md".toList then none else some "x".toList⟩
    "<!-- SYNC_START -->core<!-- SYNC_END -->".toList
    ⟨"testing.md".toList, "Testing".toList, "testing".toList⟩
    rfl (by decide) (by decide) (by decide) rfl hothers
  exact ⟨hthm.1, hthm.2.2.2.1⟩

/-- C10: the rules list loaded by the run is exactly the subsequence of
the static `RULE_FILES` table whose files loaded, in table order; each
rendered index block is the concatenation of per-topic lines in that
same order; and the per-topic output files are written in that same
order after the three aggregate files. -/
theorem outputs_in_table_order (today nowCop nowRep : Str) (fs : FS)
    (ws : List (Str × Str))
    (h : syncRules today nowCop nowRep fs = .ok ws) :
    (loadRules fs).map LoadedRule.info = RULE_FILES.filter (presentB fs) ∧
    joinMapped detailRuleLine (loadRules fs)
      = concatLines detailLineInfo (RULE_FILES.filter (presentB fs)) ∧
    joinMapped quickRuleLine (loadRules fs)
      = concatLines quickLineInfo (RULE_FILES.filter (presentB fs)) ∧
    joinMapped cursorSeeLine (loadRules fs)
      = concatLines cursorSeeLineInfo (RULE_FILES.filter (presentB fs)) ∧
    joinMapped cursorFromLine (loadRules fs)
      = concatLines cursorFromLineInfo (RULE_FILES.filter (presentB fs)) ∧
    (ws.drop 3).map Prod.fst
      = (RULE_FILES.filter (presentB fs)).map (fun ri => cursorTopicPath ri.key) := by
  obtain ⟨doc, core, hai, hde, hext, hws⟩ := syncRules_ok_inversion h
  refine ⟨loadRules_map_info fs,
    joinMapped_filterMap_load fs detailRuleLine detailLineInfo (fun r => rfl) RULE_FILES,
    joinMapped_filterMap_load fs quickRuleLine quickLineInfo (fun r => rfl) RULE_FILES,
    joinMapped_filterMap_load fs cursorSeeLine cursorSeeLineInfo (fun r => rfl) RULE_FILES,
    joinMapped_filterMap_load fs cursorFromLine cursorFromLineInfo (fun r => rfl) RULE_FILES, ?_⟩
  subst hws
  have hdrop : ((runWrites core (loadRules fs) (extractMetadata today doc)
      nowCop nowRep).drop 3)
      = (loadRules fs).map (fun rule =>
          (cursorTopicPath rule.key,
           generateMdcContent rule.content rule.name
             (rule.name ++ " rules for React TypeScript development".toList))) := by
    simp [runWrites]
  rw [hdrop, List.map_map, ← loadRules_map_info fs, List.map_map]
  rfl

theorem outputs_in_table_order_witness :
    ∃ ws, syncRules "2026-10-12".toList "T1".toList "T2".toList
        ⟨some "<!-- SYNC_START -->core<!-- SYNC_END -->".toList,
         fun g => if g = "testing.md".toList then none else some "x".toList⟩ = .ok ws ∧
      (ws.drop 3).map Prod.fst
        = (RULE_FILES.filter (presentB
            ⟨some "<!-- SYNC_START -->core<!-- SYNC_END -->".toList,
             fun g => if g = "testing.md".toList then none else some "x".toList⟩)).map
          (fun ri => cursorTopicPath ri.key) :=
  ⟨_, rfl,
    (outputs_in_table_order "2026-10-12".toList "T1".toList "T2".toList
      ⟨some "<!-- SYNC_START -->core<!-- SYNC_END -->".toList,
       fun g => if g = "testing.md".toList then none else some "x".toList⟩
      _ rfl).2.2.2.2.2⟩

example : jsTrim "  ab c \n".toList = "ab c".toList := by decide
example : indexOf? "bc".toList "abcbc".toList = some 1 := by decide
example : indexOf? "zz".toList "abc".toList = none := by decide
example : jsSubstring "abcdef".toList 4 2 = "cd".toList := by decide
example : jsSplit '\n' "a\nb\n".toList = ["a".toList, "b".toList, []] := by decide
example : jsJoin "\n".toList ["a".toList, "b".toList] = "a\nb".toList := by decide

example :
    extractCoreStandards "pre<!-- SYNC_START --> core <!-- SYNC_END -->post".toList
      = .ok "core".toList := by rfl

example : extractCoreStandards "no markers".toList = .error malformedMsg := by rfl

example :
    extractCoreStandards
        "<!-- SYNC_START -->a <!-- INCLUDE_RULES:START -->zap<!-- INCLUDE_RULES:END --> b<!-- SYNC_END -->".toList
      = .ok "a  b".toList := by rfl


example :
    extractMetadata "2026-10-12".toList "<!-- VERSION: 2.1.0 --> etc".toList
      = ⟨"2.1.0".toList, "2026-10-12".toList⟩ := by decide

example :
    extractMetadata "2026-10-12".toList "nothing".toList
      = ⟨"1.0.0".toList, "2026-10-12".toList⟩ := by decide
